import Mathlib

/-!
Shallow embedding of the medal-table extraction pipeline of the repository
`2026-olympic-medals`.  The repository contains four near-identical variants
of `scripts/updateMedals.js`: two concatenated inside
`src/scripts/updateMedals.js` (called `v1` and `v2` below), one in
`src/unnamed/part_000` (`p0`, function `parseTopRowsInDisplayOrder`) and one
in `src/unnamed/part_001` (`p1`, function `parseMedalTable` with
`sortByMedals`).  Cells are modelled after what cheerio exposes to the
scripts: the rendered text of the cell and, when present, the text of the
first hyperlink whose href begins with "/wiki/".
-/

/-- ASCII view of the JavaScript regex class `\s` (plus the characters that
`String.prototype.trim` removes): spaces, tabs, line breaks and the Unicode
space separators used by JS. -/
def jsSpace (c : Char) : Bool :=
  c.toNat = 32 || (9 ≤ c.toNat && c.toNat ≤ 13) || c.toNat = 0xa0 ||
  c.toNat = 0x1680 || (0x2000 ≤ c.toNat && c.toNat ≤ 0x200a) ||
  c.toNat = 0x2028 || c.toNat = 0x2029 || c.toNat = 0x202f ||
  c.toNat = 0x205f || c.toNat = 0x3000 || c.toNat = 0xfeff

/-- One pass of `replace(/\s+/g, " ")`: every maximal run of whitespace
becomes a single space.  The boolean records whether the previous character
was whitespace. -/
def squishAux : Bool → List Char → List Char
  | _, [] => []
  | prevSpace, c :: cs =>
    if jsSpace c then
      if prevSpace then squishAux true cs else ' ' :: squishAux true cs
    else c :: squishAux false cs

/-- `String.prototype.trim`: drop leading and trailing whitespace. -/
def jsTrim (l : List Char) : List Char :=
  ((l.dropWhile jsSpace).reverse.dropWhile jsSpace).reverse

/-- The ubiquitous `.replace(/\s+/g, " ").trim()` normalization. -/
def normWs (s : String) : String :=
  String.mk (jsTrim (squishAux false s.toList))

/-- `String.prototype.toLowerCase`, modelled per character. -/
def lowerStr (s : String) : String :=
  String.mk (s.toList.map Char.toLower)

/-- `num` (identical in all variants): strip every character that is not an
ASCII digit and parse the remainder in base 10; an empty remainder is `NaN`
in the source and is mapped to 0. -/
def num (s : String) : Nat :=
  let ds := s.toList.filter Char.isDigit
  if ds.isEmpty then 0 else ds.foldl (fun a c => 10 * a + (c.toNat - 48)) 0

/-- `needle` occurs at the start of `hay`. -/
def leadsWith : List Char → List Char → Bool
  | [], _ => true
  | _ :: _, [] => false
  | a :: as, b :: bs => a == b && leadsWith as bs

/-- `needle` occurs somewhere inside `hay` (JS `String.prototype.includes`). -/
def containsList : List Char → List Char → Bool
  | [], needle => needle.isEmpty
  | h :: t, needle => leadsWith needle (h :: t) || containsList t needle

/-- JS `hay.includes(needle)`. -/
def strContains (hay needle : String) : Bool :=
  containsList hay.toList needle.toList

/-- `name.toLowerCase().startsWith("totals")`. -/
def startsTotals (s : String) : Bool :=
  leadsWith "totals".toList (lowerStr s).toList

/-- `replace(/\*+$/g, "")`: remove the trailing run of asterisks, if any. -/
def dropStarsEnd (l : List Char) : List Char :=
  (l.reverse.dropWhile (fun c => c == '*')).reverse

/-- `name.replace(/\*+$/g, "").trim()` as applied in `p0` and `p1`. -/
def cleanNameStr (s : String) : String :=
  String.mk (jsTrim (dropStarsEnd s.toList))

/-- Regex `^[0-9]+$`: a nonempty string of ASCII digits. -/
def isAllDigits (s : String) : Bool :=
  !s.isEmpty && s.toList.all Char.isDigit

/-- Regex `^[A-Z]{3}$`. -/
def isU3 (s : String) : Bool :=
  s.length == 3 && s.toList.all Char.isUpper

/-- Search for the regex `\(([A-Z]{3})\)\s*$`: after optional trailing
whitespace the string must end in a parenthesized group of exactly three
ASCII uppercase letters; the result is the captured group. -/
def parenCode (s : String) : Option String :=
  match s.toList.reverse.dropWhile jsSpace with
  | ')' :: c :: b :: a :: '(' :: _ =>
    if a.isUpper && b.isUpper && c.isUpper then some (String.mk [a, b, c]) else none
  | _ => none

/-- JS `t.split(" ")` on the character list: split at every single space. -/
def splitSpaces : List Char → List (List Char)
  | [] => [[]]
  | c :: cs =>
    let r := splitSpaces cs
    if c = ' ' then [] :: r
    else
      match r with
      | [] => [[c]]
      | w :: ws => (c :: w) :: ws

/-- `t.split(" ").pop()`: the last space-delimited token (`""` splits to
`[""]`, so the result on an empty string is `""`). -/
def lastTok (s : String) : String :=
  String.mk ((splitSpaces s.toList).getLastD [])

/-- A table cell as the scripts see it through cheerio: its rendered text and
the text of the first link matching `a[href^="/wiki/"]`, when one exists. -/
structure Cell where
  text : String
  linkText : Option String := none
deriving Repr, DecidableEq

def emptyCell : Cell := ⟨"", none⟩

/-- A `tr` is its list of `th`/`td` cells. -/
abbrev TableRow := List Cell

/-- A `table.wikitable` is its list of `tr` rows (header row included). -/
abbrev HtmlTable := List TableRow

/-- `.text()` of a row concatenates the texts of its cells. -/
def rowText (r : TableRow) : String :=
  String.join (r.map Cell.text)

/-- `$(t).find("tr").first().text()`: the text of the first row, or `""` for
an empty table. -/
def headerText (t : HtmlTable) : String :=
  match t with
  | [] => ""
  | r :: _ => rowText r

/-- The table-selection predicate shared by every variant: the lowercased
header text contains "gold", "silver", "bronze" and "total". -/
def isMedalHeader (t : HtmlTable) : Bool :=
  let h := lowerStr (headerText t)
  strContains h "gold" && strContains h "silver" && strContains h "bronze" &&
    strContains h "total"

/-- The `tables.each(...)` scan with `return false` at the first match: the
first table in document order whose header qualifies. -/
def findMedalTable : List HtmlTable → Option HtmlTable
  | [] => none
  | t :: ts => if isMedalHeader t then some t else findMedalTable ts

/-- The canonical output record (`rows.push({...})` shape).  `rank` is an
`Option` because `p1` pushes `rank: null` and reassigns it after sorting. -/
structure MedalRow where
  rank : Option Nat
  noc : String
  name : String
  gold : Nat
  silver : Nat
  bronze : Nat
  total : Nat
  flag : Option String
  placeholder : Bool
deriving Repr, DecidableEq

/-- `NAME_TO_NOC` of `p0`/`p1`. -/
def NAME_TO_NOC : List (String × String) :=
  [("Italy", "ITA"), ("Switzerland", "SUI"), ("France", "FRA"),
   ("Germany", "GER"), ("United States", "USA"), ("Canada", "CAN"),
   ("Austria", "AUT"), ("Netherlands", "NED"), ("Norway", "NOR"),
   ("Sweden", "SWE"), ("Finland", "FIN"), ("Czechia", "CZE"),
   ("Czech Republic", "CZE"), ("Slovakia", "SVK"), ("Slovenia", "SLO"),
   ("Poland", "POL"), ("Hungary", "HUN"), ("Latvia", "LAT"),
   ("Lithuania", "LTU"), ("Estonia", "EST"), ("Great Britain", "GBR"),
   ("United Kingdom", "GBR"), ("Japan", "JPN"), ("South Korea", "KOR"),
   ("Korea", "KOR"), ("China", "CHN")]

/-- `NOC_TO_ISO2` of `p0`/`p1`. -/
def NOC_TO_ISO2 : List (String × String) :=
  [("ITA", "it"), ("SUI", "ch"), ("FRA", "fr"), ("GER", "de"), ("USA", "us"),
   ("CAN", "ca"), ("AUT", "at"), ("NED", "nl"), ("NOR", "no"), ("SWE", "se"),
   ("FIN", "fi"), ("CZE", "cz"), ("SVK", "sk"), ("SLO", "si"), ("POL", "pl"),
   ("HUN", "hu"), ("LAT", "lv"), ("LTU", "lt"), ("EST", "ee"), ("GBR", "gb"),
   ("JPN", "jp"), ("KOR", "kr"), ("CHN", "cn")]

/-- `inferNoc` of `p0`/`p1`: parenthesized suffix, then last 3-uppercase
token, then name table, else null. -/
def inferNoc (countryName cellText : String) : Option String :=
  let t := normWs cellText
  match parenCode t with
  | some c => some c
  | none =>
    let last := lastTok t
    if isU3 last then some last
    else List.lookup countryName NAME_TO_NOC

/-- `flagPngFromIso2` of `p0`/`p1` merged with the undefined-lookup case:
a missing or empty iso2 gives null. -/
def flagPngFromIso2 (iso2 : Option String) : Option String :=
  match iso2 with
  | none => none
  | some i => if i = "" then none else some ("https://flagcdn.com/w40/" ++ lowerStr i ++ ".png")

/-- `inferFlag` of `p0`/`p1`. -/
def inferFlag (noc : String) : Option String :=
  flagPngFromIso2 (List.lookup noc NOC_TO_ISO2)

/-- `flagUrlFromNoc` of `v1` (injected `nocToIso2` map). -/
def flagUrlFromNoc (noc : String) (map : List (String × String)) : Option String :=
  flagPngFromIso2 (List.lookup noc map)

/-- `flagUrlFromKey` of `v2`: a null or empty key gives null. -/
def flagUrlFromKey (key : Option String) (map : List (String × String)) : Option String :=
  match key with
  | none => none
  | some k => if k = "" then none else flagPngFromIso2 (List.lookup k map)

/-- Country name extraction of `p0`/`p1`: text of the first `/wiki/` link if
its normalized text is nonempty, else the normalized cell text; then strip a
trailing run of `*` and trim. -/
def cleanName (c : Cell) : String :=
  let base :=
    match c.linkText with
    | some lt0 => let l := normWs lt0; if l = "" then normWs c.text else l
    | none => normWs c.text
  cleanNameStr base

example : normWs "  a  b  " = "a b" := by decide
example : num "12,345" = 12345 := by decide
example : num "" = 0 := by decide
example : parenCode "Italy (ITA)" = some "ITA" := by decide
example : parenCode "Italy ITA" = none := by decide
example : lastTok "Italy ITA" = "ITA" := by decide
example : lastTok "" = "" := by decide
example : inferNoc "Japan" "Japan" = some "JPN" := by decide
example : cleanName ⟨"Norway (NOR) *", none⟩ = "Norway (NOR)" := by decide
example : cleanName ⟨"x Italy* y", some " Italy* "⟩ = "Italy" := by decide
example : startsTotals "Totals (10 entries)" = true := by decide
example : isMedalHeader [[⟨"Rank", none⟩, ⟨"NOC Gold Silver Bronze Total", none⟩]] = true := by decide

/-- `isLiveData` of every variant: some record has `gold+silver+bronze > 0`. -/
def isLive (l : List MedalRow) : Bool :=
  l.any fun r => decide (0 < r.gold + r.silver + r.bronze)

/-- Ranks for sorting in `v1`/`v2` (`a.rank - b.rank`); the rank pushed by
those variants is always a number, so the default is irrelevant. -/
def rankVal (e : MedalRow) : Nat := e.rank.getD 0

/-- The `rows.sort((a, b) => a.rank - b.rank)` comparator as a relation. -/
def rankLe (a b : MedalRow) : Prop := rankVal a ≤ rankVal b

instance : DecidableRel rankLe := fun a b => Nat.decLe (rankVal a) (rankVal b)

/-- JS `Array.prototype.sort` is stable, so it is modelled by insertion
sort (which Mathlib proves stable and sorting). -/
def sortByRank (l : List MedalRow) : List MedalRow :=
  List.insertionSort rankLe l

/-- One row of the first `parseMedalTable` in `src/scripts/updateMedals.js`
(variant `v1`).  `pos` is `rows.length + 1` at the time the row is
processed (the 1-based emission position used when the rank cell
normalizes to 0).  The trailing `(NOC)`-removal regex in the source is
textually mangled (it contains a literal `$begin:math:text$` and never
interpolates `noc`), so it matches no string and the pushed name is the
whole normalized cell text. -/
def parseRow_v1 (map : List (String × String)) (pos : Nat) (r : TableRow) :
    Option MedalRow :=
  if r.length < 6 then none else
  let rank0 := num (r.getD 0 emptyCell).text
  let rank := if rank0 = 0 then pos else rank0
  let nocCellText := normWs (r.getD 1 emptyCell).text
  let noc : Option String :=
    match parenCode nocCellText with
    | some c => some c
    | none => let last := lastTok nocCellText; if isU3 last then some last else none
  let name := nocCellText
  let gold := num (r.getD 2 emptyCell).text
  let silver := num (r.getD 3 emptyCell).text
  let bronze := num (r.getD 4 emptyCell).text
  let total := num (r.getD 5 emptyCell).text
  if name = "" then none
  else if startsTotals name then none
  else
    match noc with
    | none => none
    | some nc =>
      some { rank := some rank, noc := nc, name := name, gold := gold,
             silver := silver, bronze := bronze, total := total,
             flag := flagUrlFromNoc nc map, placeholder := false }

/-- The `.each` loop of `v1` over the data rows, threading the count of
rows pushed so far. -/
def parseRows_v1 (map : List (String × String)) : Nat → List TableRow → List MedalRow
  | _, [] => []
  | n, r :: rs =>
    match parseRow_v1 map (n + 1) r with
    | some e => e :: parseRows_v1 map (n + 1) rs
    | none => parseRows_v1 map n rs

/-- `parseMedalTable` of `v1`: locate the table, parse the rows after the
header, sort by rank ascending. -/
def parseMedalTable_v1 (ts : List HtmlTable) (map : List (String × String)) :
    List MedalRow :=
  match findMedalTable ts with
  | none => []
  | some t => sortByRank (parseRows_v1 map 0 (t.drop 1))

/-- One row of the second `parseMedalTable` in `src/scripts/updateMedals.js`
(variant `v2`).  Differences from `v1`: an empty country cell is rejected
up front, a row with unresolved NOC is kept (`noc: noc || name`), and the
flag is looked up by NOC and then by name.  The `(NOC)`-removal regex is
mangled exactly as in `v1`, so the name is the whole normalized cell text. -/
def parseRow_v2 (map : List (String × String)) (pos : Nat) (r : TableRow) :
    Option MedalRow :=
  if r.length < 6 then none else
  let rank0 := num (r.getD 0 emptyCell).text
  let rank := if rank0 = 0 then pos else rank0
  let raw := normWs (r.getD 1 emptyCell).text
  if raw = "" then none else
  let noc : Option String :=
    match parenCode raw with
    | some c => some c
    | none => let last := lastTok raw; if isU3 last then some last else none
  let name := raw
  let gold := num (r.getD 2 emptyCell).text
  let silver := num (r.getD 3 emptyCell).text
  let bronze := num (r.getD 4 emptyCell).text
  let total := num (r.getD 5 emptyCell).text
  if startsTotals name then none
  else
    let flag :=
      match flagUrlFromKey noc map with
      | some u => some u
      | none => flagUrlFromKey (some name) map
    some { rank := some rank, noc := noc.getD name, name := name, gold := gold,
           silver := silver, bronze := bronze, total := total,
           flag := flag, placeholder := false }

/-- The `.each` loop of `v2`. -/
def parseRows_v2 (map : List (String × String)) : Nat → List TableRow → List MedalRow
  | _, [] => []
  | n, r :: rs =>
    match parseRow_v2 map (n + 1) r with
    | some e => e :: parseRows_v2 map (n + 1) rs
    | none => parseRows_v2 map n rs

/-- `parseMedalTable` of `v2`. -/
def parseMedalTable_v2 (ts : List HtmlTable) (map : List (String × String)) :
    List MedalRow :=
  match findMedalTable ts with
  | none => []
  | some t => sortByRank (parseRows_v2 map 0 (t.drop 1))

/-- One row of `parseMedalTable` in `src/unnamed/part_001` (variant `p1`):
fixed column indexes (country cell is `cells[1]`, medals are
`cells[2..5]`), name from the first wiki link with cell-text fallback,
trailing asterisks stripped, `rank: null`. -/
def parseRow_p1 (r : TableRow) : Option MedalRow :=
  if r.length < 6 then none else
  let c1 := r.getD 1 emptyCell
  let name := cleanName c1
  if name = "" then none
  else if startsTotals name then none
  else
    let gold := num (r.getD 2 emptyCell).text
    let silver := num (r.getD 3 emptyCell).text
    let bronze := num (r.getD 4 emptyCell).text
    let total := num (r.getD 5 emptyCell).text
    let noc := inferNoc name c1.text
    let flag := match noc with | some nc => inferFlag nc | none => none
    some { rank := none, noc := noc.getD name, name := name, gold := gold,
           silver := silver, bronze := bronze, total := total,
           flag := flag, placeholder := false }

/-- `parseMedalTable` of `p1` (no sorting here; `main` sorts). -/
def parseMedalTable_p1 (ts : List HtmlTable) : List MedalRow :=
  match findMedalTable ts with
  | none => []
  | some t => (t.drop 1).filterMap parseRow_p1

/-- Rank-presence detection of `p0`: the first cell holds an explicit rank
iff its normalized text matches `^[0-9]+$`. -/
def firstIsRank (r : TableRow) : Bool :=
  isAllDigits (normWs (r.getD 0 emptyCell).text)

/-- One row of `parseTopRowsInDisplayOrder` in `src/unnamed/part_000`
(variant `p0`): if the first cell is a numeric rank the country column is
`cells[1]` and medals are `cells[2..5]`, otherwise the country column is
`cells[0]` and medals are `cells[1..4]`.  `pos` is `rows.length + 1`. -/
def parseRow_p0 (pos : Nat) (r : TableRow) : Option MedalRow :=
  if r.length < 5 then none else
  let start := if firstIsRank r then 1 else 0
  let cc := r.getD start emptyCell
  let name := cleanName cc
  if name = "" then none
  else if startsTotals name then none
  else
    let gold := num (r.getD (start + 1) emptyCell).text
    let silver := num (r.getD (start + 2) emptyCell).text
    let bronze := num (r.getD (start + 3) emptyCell).text
    let total := num (r.getD (start + 4) emptyCell).text
    let noc := inferNoc name cc.text
    let flag := match noc with | some nc => inferFlag nc | none => none
    some { rank := some pos, noc := noc.getD name, name := name, gold := gold,
           silver := silver, bronze := bronze, total := total,
           flag := flag, placeholder := false }

/-- The `.each` loop of `p0`: a no-op once `topN` rows have been pushed. -/
def parseRows_p0 (topN : Nat) : Nat → List TableRow → List MedalRow
  | _, [] => []
  | n, r :: rs =>
    if topN ≤ n then []
    else
      match parseRow_p0 (n + 1) r with
      | some e => e :: parseRows_p0 topN (n + 1) rs
      | none => parseRows_p0 topN n rs

/-- `parseTopRowsInDisplayOrder` of `p0`. -/
def parseTopRowsInDisplayOrder (ts : List HtmlTable) (topN : Nat) : List MedalRow :=
  match findMedalTable ts with
  | none => []
  | some t => parseRows_p0 topN 0 (t.drop 1)

/-- The `sortByMedals` comparator of `p1` as an integer-valued function
(`localeCompare` on country names is modelled as codepoint order). -/
def cmpMedals (a b : MedalRow) : Int :=
  if b.gold ≠ a.gold then (b.gold : Int) - (a.gold : Int)
  else if b.silver ≠ a.silver then (b.silver : Int) - (a.silver : Int)
  else if b.bronze ≠ a.bronze then (b.bronze : Int) - (a.bronze : Int)
  else if b.total ≠ a.total then (b.total : Int) - (a.total : Int)
  else if a.name < b.name then -1
  else if b.name < a.name then 1
  else 0

/-- `a` may be placed no later than `b` under the `p1` comparator. -/
def medalsLe (a b : MedalRow) : Prop := cmpMedals a b ≤ 0

instance : DecidableRel medalsLe := fun a b => Int.decLe (cmpMedals a b) 0

/-- `sortByMedals` of `p1`; JS sort is stable, modelled by insertion sort. -/
def sortByMedals (l : List MedalRow) : List MedalRow :=
  List.insertionSort medalsLe l

/-- `{...r, rank: i + 1}`. -/
def setRank (e : MedalRow) (k : Nat) : MedalRow := { e with rank := some k }

/-- `map((r, i) => ({...r, rank: i + 1}))` starting from rank `s`. -/
def withRanks : List MedalRow → Nat → List MedalRow
  | [], _ => []
  | e :: es, s => setRank e s :: withRanks es (s + 1)

/-- The live branch of `main` in `p1`: sort, truncate to `topN`, reassign
1-based ranks. -/
def rankedTop (rows : List MedalRow) (topN : Nat) : List MedalRow :=
  withRanks ((sortByMedals rows).take topN) 1

/-- The placeholder seed list of `v1`/`v2` as (noc, name) pairs. -/
def PLACEHOLDER_DEFAULTS_V : List (String × String) :=
  [("ITA", "Italy"), ("SUI", "Switzerland"), ("USA", "United States"),
   ("CAN", "Canada"), ("GER", "Germany"), ("NOR", "Norway"),
   ("SWE", "Sweden"), ("FRA", "France"), ("AUT", "Austria"),
   ("NED", "Netherlands")]

/-- The placeholder seed list of `p0`/`p1` as (noc, name) pairs. -/
def PLACEHOLDER_DEFAULTS_P : List (String × String) :=
  [("ITA", "Italy"), ("SUI", "Switzerland"), ("NOR", "Norway"),
   ("GER", "Germany"), ("CAN", "Canada")]

/-- `buildPlaceholders` of `v1`: cycle the seed list, rank = 1-based
position, zero medals, flag by NOC through the injected map. -/
def buildPlaceholders_v1 (map : List (String × String)) (count : Nat) :
    List MedalRow :=
  (List.range count).map fun i =>
    let base := PLACEHOLDER_DEFAULTS_V.getD (i % PLACEHOLDER_DEFAULTS_V.length) ("", "")
    { rank := some (i + 1), noc := base.1, name := base.2, gold := 0,
      silver := 0, bronze := 0, total := 0,
      flag := flagUrlFromNoc base.1 map, placeholder := true }

/-- `buildPlaceholders` of `v2`: same, but the flag lookup falls back from
NOC to country name. -/
def buildPlaceholders_v2 (map : List (String × String)) (count : Nat) :
    List MedalRow :=
  (List.range count).map fun i =>
    let base := PLACEHOLDER_DEFAULTS_V.getD (i % PLACEHOLDER_DEFAULTS_V.length) ("", "")
    let flag :=
      match flagUrlFromKey (some base.1) map with
      | some u => some u
      | none => flagUrlFromKey (some base.2) map
    { rank := some (i + 1), noc := base.1, name := base.2, gold := 0,
      silver := 0, bronze := 0, total := 0, flag := flag, placeholder := true }

/-- `buildPlaceholders` of `p0`/`p1` (five seeds, flag via `inferFlag`). -/
def buildPlaceholders_p (count : Nat) : List MedalRow :=
  (List.range count).map fun i =>
    let base := PLACEHOLDER_DEFAULTS_P.getD (i % PLACEHOLDER_DEFAULTS_P.length) ("", "")
    { rank := some (i + 1), noc := base.1, name := base.2, gold := 0,
      silver := 0, bronze := 0, total := 0,
      flag := inferFlag base.1, placeholder := true }

/-- The row selection of `main` in `v1`:
`isLiveData ? parsedRows.slice(0, 10) : buildPlaceholders(...)`. -/
def finalRows_v1 (ts : List HtmlTable) (map : List (String × String))
    (placeholderCount : Nat) : List MedalRow :=
  let parsed := parseMedalTable_v1 ts map
  if isLive parsed then parsed.take 10 else buildPlaceholders_v1 map placeholderCount

/-- The row selection of `main` in `v2`:
`parsedRows.length > 0 ? parsedRows.slice(0, 10) : buildPlaceholders(...)`. -/
def finalRows_v2 (ts : List HtmlTable) (map : List (String × String))
    (placeholderCount : Nat) : List MedalRow :=
  let parsed := parseMedalTable_v2 ts map
  if 0 < parsed.length then parsed.take 10 else buildPlaceholders_v2 map placeholderCount

/-- The row selection of `main` in `p0`: the parsed rows exactly when there
are `TOP_N` of them, else truncated placeholders. -/
def finalRows_p0 (ts : List HtmlTable) (topN placeholderCount : Nat) : List MedalRow :=
  let top := parseTopRowsInDisplayOrder ts topN
  if top.length = topN then top
  else (buildPlaceholders_p (max placeholderCount topN)).take topN

/-- The row selection of `main` in `p1`: placeholders when nothing parsed,
else the sorted, truncated, reranked rows. -/
def finalRows_p1 (ts : List HtmlTable) (topN placeholderCount : Nat) : List MedalRow :=
  let parsed := parseMedalTable_p1 ts
  if parsed.length = 0 then (buildPlaceholders_p (max topN placeholderCount)).take topN
  else rankedTop parsed topN

/-! ### Generic facts about the embedded functions -/

theorem findMedalTable_eq_some {ts : List HtmlTable} {t : HtmlTable}
    (h : findMedalTable ts = some t) :
    isMedalHeader t = true ∧
      ∃ pre post, ts = pre ++ t :: post ∧ ∀ u ∈ pre, isMedalHeader u = false := by
  induction ts with
  | nil => simp [findMedalTable] at h
  | cons a ts ih =>
    rw [findMedalTable] at h
    by_cases ha : isMedalHeader a
    · rw [if_pos ha] at h
      cases h
      exact ⟨ha, [], ts, rfl, by simp⟩
    · rw [if_neg ha] at h
      obtain ⟨hdr, pre, post, hsplit, hpre⟩ := ih h
      refine ⟨hdr, a :: pre, post, by simp [hsplit], ?_⟩
      intro u hu
      rcases List.mem_cons.1 hu with h1 | h2
      · simpa [h1] using ha
      · exact hpre u h2

theorem findMedalTable_eq_none {ts : List HtmlTable} :
    findMedalTable ts = none ↔ ∀ u ∈ ts, isMedalHeader u = false := by
  induction ts with
  | nil => simp [findMedalTable]
  | cons a ts ih =>
    rw [findMedalTable]
    rcases hb : isMedalHeader a with _ | _
    · rw [if_neg (by simp [hb]), ih]
      constructor
      · intro h u hu
        rcases List.mem_cons.1 hu with h1 | h2
        · rw [h1]; exact hb
        · exact h u h2
      · intro h u hu
        exact h u (List.mem_cons_of_mem a hu)
    · rw [if_pos (by simp [hb])]
      constructor
      · intro h; cases h
      · intro h
        have hc := h a (List.mem_cons_self a ts)
        rw [hb] at hc
        cases hc

theorem parenCode_ne_empty {s c : String} (h : parenCode s = some c) : c ≠ "" := by
  unfold parenCode at h
  split at h
  · split at h
    · cases h
      intro he
      have hd := congrArg String.length he
      simp [String.length] at hd
    · cases h
  · cases h

theorem isU3_ne_empty {s : String} (h : isU3 s = true) : s ≠ "" := by
  intro he
  subst he
  simp [isU3] at h

theorem lookup_ne_empty {m : List (String × String)} {k v : String}
    (hm : ∀ p ∈ m, p.2 ≠ "") (h : List.lookup k m = some v) : v ≠ "" := by
  induction m with
  | nil => simp [List.lookup] at h
  | cons p rest ih =>
    rw [List.lookup] at h
    split at h
    · cases h
      exact hm p (by simp)
    · exact ih (fun q hq => hm q (List.mem_cons_of_mem p hq)) h

theorem inferNoc_ne_empty {n s c : String} (h : inferNoc n s = some c) : c ≠ "" := by
  simp only [inferNoc] at h
  split at h
  · next hp => cases h; exact parenCode_ne_empty hp
  · split at h
    · next hu => cases h; exact isU3_ne_empty hu
    · exact lookup_ne_empty (by decide) h

theorem parseRow_p1_none_iff (r : TableRow) :
    parseRow_p1 r = none ↔
      (r.length < 6 ∨ cleanName (r.getD 1 emptyCell) = "" ∨
        startsTotals (cleanName (r.getD 1 emptyCell)) = true) := by
  simp only [parseRow_p1]
  split
  · next hlen => simp [hlen]
  · next hlen =>
    split
    · next hname =>
      simp only [List.getD_eq_getElem?_getD] at hname
      simp [hlen, hname]
    · next hname =>
      split
      · next htot =>
        simp only [List.getD_eq_getElem?_getD] at htot
        simp [hlen, htot]
      · next htot =>
        simp only [List.getD_eq_getElem?_getD] at hname htot
        simp [hlen, hname, htot]

theorem parseRow_p1_some_props {r : TableRow} {e : MedalRow}
    (h : parseRow_p1 r = some e) :
    e.placeholder = false ∧ e.rank = none ∧
    e.name = cleanName (r.getD 1 emptyCell) ∧
    e.name ≠ "" ∧ startsTotals e.name = false ∧
    e.noc = (inferNoc e.name (r.getD 1 emptyCell).text).getD e.name ∧
    e.flag = (match inferNoc e.name (r.getD 1 emptyCell).text with
              | some nc => inferFlag nc
              | none => none) := by
  simp only [parseRow_p1] at h
  split at h
  · cases h
  · next hlen =>
    split at h
    · cases h
    · next hname =>
      split at h
      · cases h
      · next htot =>
        cases h
        refine ⟨rfl, rfl, rfl, hname, ?_, rfl, rfl⟩
        simpa using htot

theorem parseRow_p0_some_props {pos : Nat} {r : TableRow} {e : MedalRow}
    (h : parseRow_p0 pos r = some e) :
    e.placeholder = false ∧ e.rank = some pos ∧
    e.name = cleanName (r.getD (if firstIsRank r then 1 else 0) emptyCell) ∧
    e.name ≠ "" ∧ startsTotals e.name = false ∧
    e.noc = (inferNoc e.name
      (r.getD (if firstIsRank r then 1 else 0) emptyCell).text).getD e.name ∧
    e.flag = (match inferNoc e.name
        (r.getD (if firstIsRank r then 1 else 0) emptyCell).text with
      | some nc => inferFlag nc
      | none => none) ∧
    e.gold = num (r.getD ((if firstIsRank r then 1 else 0) + 1) emptyCell).text ∧
    e.silver = num (r.getD ((if firstIsRank r then 1 else 0) + 2) emptyCell).text ∧
    e.bronze = num (r.getD ((if firstIsRank r then 1 else 0) + 3) emptyCell).text ∧
    e.total = num (r.getD ((if firstIsRank r then 1 else 0) + 4) emptyCell).text := by
  by_cases hfr : firstIsRank r = true <;>
  · simp only [parseRow_p0, hfr, if_true, if_false, Bool.false_eq_true] at h ⊢
    split at h
    · cases h
    · next hlen =>
      split at h
      · cases h
      · next hname =>
        split at h
        · cases h
        · next htot =>
          cases h
          refine ⟨rfl, rfl, rfl, hname, ?_, rfl, rfl, rfl, rfl, rfl, rfl⟩
          simpa using htot

theorem parseRow_p0_none_iff (pos : Nat) (r : TableRow) :
    parseRow_p0 pos r = none ↔
      (r.length < 5 ∨
        cleanName (r.getD (if firstIsRank r then 1 else 0) emptyCell) = "" ∨
        startsTotals (cleanName (r.getD (if firstIsRank r then 1 else 0) emptyCell)) = true) := by
  by_cases hfr : firstIsRank r = true <;>
  · simp only [parseRow_p0, hfr, if_true, if_false, Bool.false_eq_true]
    split
    · next hlen => simp [hlen]
    · next hlen =>
      split
      · next hname =>
        simp only [List.getD_eq_getElem?_getD] at hname
        simp [hlen, hname]
      · next hname =>
        split
        · next htot =>
          simp only [List.getD_eq_getElem?_getD] at htot
          simp [hlen, htot]
        · next htot =>
          simp only [List.getD_eq_getElem?_getD] at hname htot
          simp [hlen, hname, htot]

theorem parseRow_v1_some_props {map : List (String × String)} {pos : Nat}
    {r : TableRow} {e : MedalRow} (h : parseRow_v1 map pos r = some e) :
    e.placeholder = false ∧
    e.rank = some (if num (r.getD 0 emptyCell).text = 0 then pos
                   else num (r.getD 0 emptyCell).text) ∧
    e.name = normWs (r.getD 1 emptyCell).text ∧
    e.name ≠ "" ∧ startsTotals e.name = false := by
  simp only [parseRow_v1] at h
  split at h
  · cases h
  · next hlen =>
    split at h
    · cases h
    · next hname =>
      split at h
      · cases h
      · next htot =>
        split at h
        · cases h
        · cases h
          refine ⟨rfl, rfl, rfl, hname, ?_⟩
          simpa using htot

theorem parseRow_v2_some_props {map : List (String × String)} {pos : Nat}
    {r : TableRow} {e : MedalRow} (h : parseRow_v2 map pos r = some e) :
    e.placeholder = false ∧
    e.rank = some (if num (r.getD 0 emptyCell).text = 0 then pos
                   else num (r.getD 0 emptyCell).text) ∧
    e.name = normWs (r.getD 1 emptyCell).text ∧
    e.name ≠ "" ∧ startsTotals e.name = false := by
  simp only [parseRow_v2] at h
  split at h
  · cases h
  · next hlen =>
    split at h
    · cases h
    · next hraw =>
      split at h
      · cases h
      · next htot =>
        cases h
        refine ⟨rfl, rfl, rfl, hraw, ?_⟩
        simpa using htot

theorem mem_parseRows_v1 {map : List (String × String)} {e : MedalRow} :
    ∀ {n : Nat} {rs : List TableRow}, e ∈ parseRows_v1 map n rs →
      ∃ r k, r ∈ rs ∧ 1 ≤ k ∧ parseRow_v1 map k r = some e := by
  intro n rs
  induction rs generalizing n with
  | nil => intro h; cases h
  | cons r rs ih =>
    intro h
    rw [parseRows_v1] at h
    rcases hp : parseRow_v1 map (n + 1) r with _ | e0
    · rw [hp] at h
      obtain ⟨r0, k, hr0, hk, hpk⟩ := ih h
      exact ⟨r0, k, List.mem_cons_of_mem r hr0, hk, hpk⟩
    · rw [hp] at h
      rcases List.mem_cons.1 h with h1 | h2
      · exact ⟨r, n + 1, List.mem_cons_self r rs, Nat.le_add_left 1 n, by rw [hp, h1]⟩
      · obtain ⟨r0, k, hr0, hk, hpk⟩ := ih h2
        exact ⟨r0, k, List.mem_cons_of_mem r hr0, hk, hpk⟩

theorem mem_parseRows_v2 {map : List (String × String)} {e : MedalRow} :
    ∀ {n : Nat} {rs : List TableRow}, e ∈ parseRows_v2 map n rs →
      ∃ r k, r ∈ rs ∧ 1 ≤ k ∧ parseRow_v2 map k r = some e := by
  intro n rs
  induction rs generalizing n with
  | nil => intro h; cases h
  | cons r rs ih =>
    intro h
    rw [parseRows_v2] at h
    rcases hp : parseRow_v2 map (n + 1) r with _ | e0
    · rw [hp] at h
      obtain ⟨r0, k, hr0, hk, hpk⟩ := ih h
      exact ⟨r0, k, List.mem_cons_of_mem r hr0, hk, hpk⟩
    · rw [hp] at h
      rcases List.mem_cons.1 h with h1 | h2
      · exact ⟨r, n + 1, List.mem_cons_self r rs, Nat.le_add_left 1 n, by rw [hp, h1]⟩
      · obtain ⟨r0, k, hr0, hk, hpk⟩ := ih h2
        exact ⟨r0, k, List.mem_cons_of_mem r hr0, hk, hpk⟩

theorem mem_parseRows_p0 {topN : Nat} {e : MedalRow} :
    ∀ {n : Nat} {rs : List TableRow}, e ∈ parseRows_p0 topN n rs →
      ∃ r k, r ∈ rs ∧ 1 ≤ k ∧ parseRow_p0 k r = some e := by
  intro n rs
  induction rs generalizing n with
  | nil => intro h; cases h
  | cons r rs ih =>
    intro h
    rw [parseRows_p0] at h
    split at h
    · cases h
    · rcases hp : parseRow_p0 (n + 1) r with _ | e0
      · rw [hp] at h
        obtain ⟨r0, k, hr0, hk, hpk⟩ := ih h
        exact ⟨r0, k, List.mem_cons_of_mem r hr0, hk, hpk⟩
      · rw [hp] at h
        rcases List.mem_cons.1 h with h1 | h2
        · exact ⟨r, n + 1, List.mem_cons_self r rs, Nat.le_add_left 1 n, by rw [hp, h1]⟩
        · obtain ⟨r0, k, hr0, hk, hpk⟩ := ih h2
          exact ⟨r0, k, List.mem_cons_of_mem r hr0, hk, hpk⟩

theorem mem_parseMedalTable_v1 {ts : List HtmlTable} {map : List (String × String)}
    {e : MedalRow} (h : e ∈ parseMedalTable_v1 ts map) :
    ∃ r k, 1 ≤ k ∧ parseRow_v1 map k r = some e := by
  unfold parseMedalTable_v1 at h
  split at h
  · cases h
  · rw [sortByRank, List.mem_insertionSort] at h
    obtain ⟨r, k, _, hk, hpk⟩ := mem_parseRows_v1 h
    exact ⟨r, k, hk, hpk⟩

theorem mem_parseMedalTable_v2 {ts : List HtmlTable} {map : List (String × String)}
    {e : MedalRow} (h : e ∈ parseMedalTable_v2 ts map) :
    ∃ r k, 1 ≤ k ∧ parseRow_v2 map k r = some e := by
  unfold parseMedalTable_v2 at h
  split at h
  · cases h
  · rw [sortByRank, List.mem_insertionSort] at h
    obtain ⟨r, k, _, hk, hpk⟩ := mem_parseRows_v2 h
    exact ⟨r, k, hk, hpk⟩

theorem mem_parseMedalTable_p1 {ts : List HtmlTable} {e : MedalRow}
    (h : e ∈ parseMedalTable_p1 ts) : ∃ r, parseRow_p1 r = some e := by
  unfold parseMedalTable_p1 at h
  split at h
  · cases h
  · obtain ⟨r, _, hr⟩ := List.mem_filterMap.1 h
    exact ⟨r, hr⟩

theorem mem_parseTopRows_p0 {ts : List HtmlTable} {topN : Nat} {e : MedalRow}
    (h : e ∈ parseTopRowsInDisplayOrder ts topN) :
    ∃ r k, 1 ≤ k ∧ parseRow_p0 k r = some e := by
  unfold parseTopRowsInDisplayOrder at h
  split at h
  · cases h
  · obtain ⟨r, k, _, hk, hpk⟩ := mem_parseRows_p0 h
    exact ⟨r, k, hk, hpk⟩

theorem mem_buildPlaceholders_v1 {map : List (String × String)} {count : Nat}
    {e : MedalRow} (h : e ∈ buildPlaceholders_v1 map count) :
    e.placeholder = true ∧ ∃ i, i < count ∧ e.rank = some (i + 1) := by
  obtain ⟨i, hi, he⟩ := List.mem_map.1 h
  rw [List.mem_range] at hi
  exact ⟨by rw [← he], i, hi, by rw [← he]⟩

theorem mem_buildPlaceholders_v2 {map : List (String × String)} {count : Nat}
    {e : MedalRow} (h : e ∈ buildPlaceholders_v2 map count) :
    e.placeholder = true ∧ ∃ i, i < count ∧ e.rank = some (i + 1) := by
  obtain ⟨i, hi, he⟩ := List.mem_map.1 h
  rw [List.mem_range] at hi
  exact ⟨by rw [← he], i, hi, by rw [← he]⟩

theorem mem_buildPlaceholders_p {count : Nat} {e : MedalRow}
    (h : e ∈ buildPlaceholders_p count) :
    e.placeholder = true ∧ ∃ i, i < count ∧ e.rank = some (i + 1) := by
  obtain ⟨i, hi, he⟩ := List.mem_map.1 h
  rw [List.mem_range] at hi
  exact ⟨by rw [← he], i, hi, by rw [← he]⟩

theorem getElem_buildPlaceholders_p (count i : Nat)
    (h : i < (buildPlaceholders_p count).length) :
    ((buildPlaceholders_p count)[i]).rank = some (i + 1) := by
  simp [buildPlaceholders_p]

theorem withRanks_length (l : List MedalRow) : ∀ s, (withRanks l s).length = l.length := by
  induction l with
  | nil => intro s; rfl
  | cons e es ih => intro s; simp [withRanks, ih]

theorem mem_withRanks {x : MedalRow} :
    ∀ {l : List MedalRow} {s : Nat}, x ∈ withRanks l s →
      ∃ y k, y ∈ l ∧ s ≤ k ∧ x = setRank y k := by
  intro l
  induction l with
  | nil => intro s h; cases h
  | cons e es ih =>
    intro s h
    rw [withRanks] at h
    rcases List.mem_cons.1 h with h1 | h2
    · exact ⟨e, s, List.mem_cons_self e es, le_refl s, h1⟩
    · obtain ⟨y, k, hy, hk, hx⟩ := ih h2
      exact ⟨y, k, List.mem_cons_of_mem e hy, le_trans (Nat.le_succ s) hk, hx⟩

theorem withRanks_get? :
    ∀ (l : List MedalRow) (s i : Nat),
      (withRanks l s)[i]? = Option.map (fun y => setRank y (s + i)) l[i]? := by
  intro l
  induction l with
  | nil => intro s i; simp [withRanks]
  | cons e es ih =>
    intro s i
    rcases i with _ | j
    · simp [withRanks]
    · have hsj : s + 1 + j = s + (j + 1) := by omega
      simp only [withRanks, List.getElem?_cons_succ]
      rw [ih (s + 1) j, hsj]

theorem rankedTop_rank (rows : List MedalRow) (topN i : Nat)
    (h : i < (rankedTop rows topN).length) :
    ((rankedTop rows topN)[i]).rank = some (i + 1) := by
  have h1 : i < (withRanks ((sortByMedals rows).take topN) 1).length := by
    simpa [rankedTop] using h
  have h2 := withRanks_get? ((sortByMedals rows).take topN) 1 i
  rcases h4 : ((sortByMedals rows).take topN)[i]? with _ | y
  · rw [h4] at h2
    rw [List.getElem?_eq_getElem h1] at h2
    cases h2
  · rw [h4, List.getElem?_eq_getElem h1] at h2
    have h5 := Option.some.inj h2
    simp only [rankedTop]
    rw [h5]
    simp [setRank, Nat.add_comm]

/-- The ordering demanded by the spec for recompute mode, stated in its own
words: gold descending, then silver, bronze and total descending, then
displayName ascending as the final tie-break. -/
def specLe (a b : MedalRow) : Prop :=
  b.gold < a.gold ∨ (a.gold = b.gold ∧ (b.silver < a.silver ∨ (a.silver = b.silver ∧
    (b.bronze < a.bronze ∨ (a.bronze = b.bronze ∧ (b.total < a.total ∨
      (a.total = b.total ∧ a.name ≤ b.name)))))))

theorem medalsLe_iff_specLe (a b : MedalRow) : medalsLe a b ↔ specLe a b := by
  rw [medalsLe, cmpMedals, specLe]
  rcases Nat.lt_trichotomy a.gold b.gold with hg | hg | hg
  · rw [if_pos (by omega)]
    constructor
    · intro hle; exfalso; omega
    · rintro (h | ⟨he, _⟩) <;> omega
  · rw [if_neg (by omega)]
    rcases Nat.lt_trichotomy a.silver b.silver with hs | hs | hs
    · rw [if_pos (by omega)]
      constructor
      · intro hle; exfalso; omega
      · rintro (h | ⟨-, h | ⟨he, -⟩⟩) <;> omega
    · rw [if_neg (by omega)]
      rcases Nat.lt_trichotomy a.bronze b.bronze with hb | hb | hb
      · rw [if_pos (by omega)]
        constructor
        · intro hle; exfalso; omega
        · rintro (h | ⟨-, h | ⟨-, h | ⟨he, -⟩⟩⟩) <;> omega
      · rw [if_neg (by omega)]
        rcases Nat.lt_trichotomy a.total b.total with ht | ht | ht
        · rw [if_pos (by omega)]
          constructor
          · intro hle; exfalso; omega
          · rintro (h | ⟨-, h | ⟨-, h | ⟨-, h | ⟨he, -⟩⟩⟩⟩) <;> omega
        · rw [if_neg (by omega)]
          rcases lt_trichotomy a.name b.name with hn | hn | hn
          · rw [if_pos hn]
            constructor
            · intro _
              exact Or.inr ⟨hg, Or.inr ⟨hs, Or.inr ⟨hb, Or.inr ⟨ht, hn.le⟩⟩⟩⟩
            · intro _; omega
          · rw [if_neg (by rw [hn]; exact lt_irrefl b.name), if_neg (by rw [hn]; exact lt_irrefl b.name)]
            constructor
            · intro _
              exact Or.inr ⟨hg, Or.inr ⟨hs, Or.inr ⟨hb, Or.inr ⟨ht, le_of_eq hn⟩⟩⟩⟩
            · intro _; omega
          · rw [if_neg (asymm hn), if_pos hn]
            constructor
            · intro hle; exfalso; omega
            · rintro (h | ⟨-, h | ⟨-, h | ⟨-, h | ⟨-, hle⟩⟩⟩⟩)
              · omega
              · omega
              · omega
              · omega
              · exact absurd hle (not_le.2 hn)
        · rw [if_pos (by omega)]
          constructor
          · intro _
            exact Or.inr ⟨hg, Or.inr ⟨hs, Or.inr ⟨hb, Or.inl ht⟩⟩⟩
          · intro _; omega
      · rw [if_pos (by omega)]
        constructor
        · intro _
          exact Or.inr ⟨hg, Or.inr ⟨hs, Or.inl hb⟩⟩
        · intro _; omega
    · rw [if_pos (by omega)]
      constructor
      · intro _
        exact Or.inr ⟨hg, Or.inl hs⟩
      · intro _; omega
  · rw [if_pos (by omega)]
    constructor
    · intro _; exact Or.inl hg
    · intro _; omega

/-- Lexicographic key realizing the comparator: the four medal counts with
the dual (descending) order, then the name ascending. -/
def sortKey (r : MedalRow) :
    (OrderDual Nat) ×ₗ ((OrderDual Nat) ×ₗ ((OrderDual Nat) ×ₗ ((OrderDual Nat) ×ₗ String))) :=
  toLex (OrderDual.toDual r.gold,
    toLex (OrderDual.toDual r.silver,
      toLex (OrderDual.toDual r.bronze,
        toLex (OrderDual.toDual r.total, r.name))))

theorem specLe_iff_sortKey (a b : MedalRow) : specLe a b ↔ sortKey a ≤ sortKey b := by
  simp only [specLe, sortKey, Prod.Lex.le_iff, OrderDual.toDual_lt_toDual,
    OrderDual.toDual_inj]

theorem medalsLe_iff_sortKey (a b : MedalRow) : medalsLe a b ↔ sortKey a ≤ sortKey b :=
  (medalsLe_iff_specLe a b).trans (specLe_iff_sortKey a b)

instance : IsTrans MedalRow medalsLe :=
  ⟨fun a b c h1 h2 => (medalsLe_iff_sortKey a c).2
    (le_trans ((medalsLe_iff_sortKey a b).1 h1) ((medalsLe_iff_sortKey b c).1 h2))⟩

instance : IsTotal MedalRow medalsLe :=
  ⟨fun a b => by
    rcases le_total (sortKey a) (sortKey b) with h | h
    · exact Or.inl ((medalsLe_iff_sortKey a b).2 h)
    · exact Or.inr ((medalsLe_iff_sortKey b a).2 h)⟩

theorem medalsLe_setRank {a b : MedalRow} {j k : Nat} (h : medalsLe a b) :
    medalsLe (setRank a j) (setRank b k) := h

theorem pairwise_withRanks {l : List MedalRow} :
    ∀ s, List.Pairwise medalsLe l → List.Pairwise medalsLe (withRanks l s) := by
  induction l with
  | nil => intro s _; exact List.Pairwise.nil
  | cons e es ih =>
    intro s h
    rcases List.pairwise_cons.1 h with ⟨he, hes⟩
    rw [withRanks]
    refine List.pairwise_cons.2 ⟨?_, ih (s + 1) hes⟩
    intro x hx
    obtain ⟨y, k, hy, _, rfl⟩ := mem_withRanks hx
    exact medalsLe_setRank (he y hy)

theorem sorted_rankedTop (rows : List MedalRow) (topN : Nat) :
    List.Sorted specLe (rankedTop rows topN) := by
  have h1 : List.Sorted medalsLe (sortByMedals rows) :=
    List.sorted_insertionSort medalsLe rows
  have h2 : List.Pairwise medalsLe ((sortByMedals rows).take topN) :=
    h1.sublist (List.take_sublist topN (sortByMedals rows))
  have h3 := pairwise_withRanks 1 h2
  exact h3.imp fun hab => (medalsLe_iff_specLe _ _).1 hab

theorem inferNoc_paren {n s c : String} (h : parenCode (normWs s) = some c) :
    inferNoc n s = some c := by
  simp only [inferNoc, h]

theorem inferNoc_lastTok {n s : String} (h1 : parenCode (normWs s) = none)
    (h2 : isU3 (lastTok (normWs s)) = true) :
    inferNoc n s = some (lastTok (normWs s)) := by
  simp only [inferNoc, h1, h2, if_true]

theorem inferNoc_lookupName {n s : String} (h1 : parenCode (normWs s) = none)
    (h2 : isU3 (lastTok (normWs s)) = false) :
    inferNoc n s = List.lookup n NAME_TO_NOC := by
  simp only [inferNoc, h1, h2]
  rw [if_neg (by simp)]

theorem isLive_iff (l : List MedalRow) :
    isLive l = true ↔ ∃ r, r ∈ l ∧ 0 < r.gold + r.silver + r.bronze := by
  simp [isLive, List.any_eq_true]

theorem isLive_nil : isLive [] = false := rfl

theorem isLive_ne_nil {l : List MedalRow} (h : isLive l = true) : l ≠ [] := by
  obtain ⟨r, hr, _⟩ := (isLive_iff l).1 h
  intro hnil
  rw [hnil] at hr
  cases hr

theorem parse_v1_placeholder_false {ts : List HtmlTable} {map : List (String × String)}
    {e : MedalRow} (h : e ∈ parseMedalTable_v1 ts map) : e.placeholder = false := by
  obtain ⟨r, k, _, hp⟩ := mem_parseMedalTable_v1 h
  exact (parseRow_v1_some_props hp).1

theorem num_filter_digits (s : String) :
    num (String.mk (s.toList.filter Char.isDigit)) = num s := by
  have hff : (s.data.filter Char.isDigit).filter Char.isDigit
      = s.data.filter Char.isDigit := by
    rw [List.filter_filter]
    simp
  simp only [num, String.toList]
  rw [hff]

theorem num_eq_zero_of_no_digits {s : String}
    (h : s.toList.all (fun c => !(Char.isDigit c)) = true) : num s = 0 := by
  have hnil : s.data.filter Char.isDigit = [] := by
    rw [List.filter_eq_nil_iff]
    intro a ha
    have h2 := List.all_eq_true.1 h a ha
    simpa using h2
  simp only [num, String.toList]
  rw [hnil]
  rfl

/-! ### Claim theorems -/

/-- C5: the liveness boolean is true iff at least one extracted record has
`gold + silver + bronze > 0`; an empty record list is always non-live, and a
single nonzero medal count in any record makes it true. -/
theorem claim_C5 :
    isLive [] = false ∧
    ∀ rows : List MedalRow,
      (isLive rows = true ↔ ∃ r, r ∈ rows ∧ 0 < r.gold + r.silver + r.bronze) :=
  ⟨isLive_nil, isLive_iff⟩

/-- C8: country-code resolution is an ordered strategy chain in which the
first success wins: a parenthesized 3-uppercase-letter suffix of the cell
text, else a last whitespace-delimited token of exactly three uppercase
letters, else a lookup of the display name in the name-to-code table, else
unresolved (`none`). -/
theorem claim_C8 :
    (∀ n s c : String, parenCode (normWs s) = some c → inferNoc n s = some c) ∧
    (∀ n s : String, parenCode (normWs s) = none →
      isU3 (lastTok (normWs s)) = true →
      inferNoc n s = some (lastTok (normWs s))) ∧
    (∀ n s : String, parenCode (normWs s) = none →
      isU3 (lastTok (normWs s)) = false →
      inferNoc n s = List.lookup n NAME_TO_NOC) :=
  ⟨fun _ _ _ h => inferNoc_paren h,
   fun _ _ h1 h2 => inferNoc_lastTok h1 h2,
   fun _ _ h1 h2 => inferNoc_lookupName h1 h2⟩

/-- Witness for C8 at concrete inputs: each strategy of the chain fires in
order, and a name matched by no strategy is unresolved. -/
theorem claim_C8_witness :
    inferNoc "Italy" "Italy (ITA)" = some "ITA" ∧
    inferNoc "Norway" "Norway NOR" = some "NOR" ∧
    inferNoc "Japan" "Japan" = some "JPN" ∧
    inferNoc "Atlantis" "Atlantis" = none :=
  ⟨claim_C8.1 "Italy" "Italy (ITA)" "ITA" (by decide),
   (claim_C8.2.1 "Norway" "Norway NOR" (by decide) (by decide)).trans (by decide),
   (claim_C8.2.2 "Japan" "Japan" (by decide) (by decide)).trans (by decide),
   (claim_C8.2.2 "Atlantis" "Atlantis" (by decide) (by decide)).trans (by decide)⟩

/-- C9: numeric normalization depends only on the digit characters of its
input (stripping non-digits changes nothing), any input without digits
yields 0, and the function is total (it never raises); `"12,345"` parses to
12345, and empty or `"null"` input yields 0. -/
theorem claim_C9 :
    (∀ s : String, num (String.mk (s.toList.filter Char.isDigit)) = num s) ∧
    (∀ s : String, s.toList.all (fun c => !(Char.isDigit c)) = true → num s = 0) ∧
    num "" = 0 ∧ num "null" = 0 ∧ num "12,345" = 12345 :=
  ⟨num_filter_digits, fun _ h => num_eq_zero_of_no_digits h, by decide, by decide,
   by decide⟩

/-- Witness for C9: the no-digits clause discharged at a concrete input. -/
theorem claim_C9_witness : num "abc" = 0 ∧ num "12,345" = 12345 :=
  ⟨claim_C9.2.1 "abc" (by decide), claim_C9.2.2.2.2⟩

/-- C6: the source locator scans tables in document order and picks the
first whose header row text contains "gold", "silver", "bronze" and
"total" case-insensitively (never a later match); when no table qualifies,
every extraction variant returns an empty record list, liveness is false,
and no exception is possible (all functions are total). -/
theorem claim_C6 :
    (∀ (ts : List HtmlTable) (t : HtmlTable), findMedalTable ts = some t →
      isMedalHeader t = true ∧
        ∃ pre post, ts = pre ++ t :: post ∧ ∀ u ∈ pre, isMedalHeader u = false) ∧
    (∀ ts : List HtmlTable,
      (findMedalTable ts = none ↔ ∀ u ∈ ts, isMedalHeader u = false)) ∧
    (∀ (ts : List HtmlTable) (map : List (String × String)) (topN : Nat),
      findMedalTable ts = none →
        parseMedalTable_v1 ts map = [] ∧ parseMedalTable_v2 ts map = [] ∧
        parseMedalTable_p1 ts = [] ∧ parseTopRowsInDisplayOrder ts topN = [] ∧
        isLive (parseMedalTable_v1 ts map) = false) := by
  refine ⟨fun ts t h => findMedalTable_eq_some h, fun ts => findMedalTable_eq_none, ?_⟩
  intro ts map topN h
  refine ⟨?_, ?_, ?_, ?_, ?_⟩ <;>
    simp [parseMedalTable_v1, parseMedalTable_v2, parseMedalTable_p1,
      parseTopRowsInDisplayOrder, h, isLive]

/-- A document with no qualifying table. -/
def docNoTable : List HtmlTable := [[[⟨"nothing here", none⟩]]]

/-- A qualifying header row. -/
def hdrRow : TableRow := [⟨"Rank", none⟩, ⟨"NOC Gold Silver Bronze Total", none⟩]

/-- Witness for C6: a non-qualifying document yields empty results and
non-live data; a qualifying table is found first. -/
theorem claim_C6_witness :
    (parseMedalTable_v1 docNoTable [] = [] ∧ parseMedalTable_v2 docNoTable [] = [] ∧
      parseMedalTable_p1 docNoTable = [] ∧
      parseTopRowsInDisplayOrder docNoTable 5 = [] ∧
      isLive (parseMedalTable_v1 docNoTable []) = false) ∧
    isMedalHeader [hdrRow] = true :=
  ⟨claim_C6.2.2 docNoTable [] 5 (by decide),
   (claim_C6.1 [[[⟨"x", none⟩]], [hdrRow]] [hdrRow] (by decide)).1⟩

/-- C7: in recompute mode (`p1`), sorting is by gold, silver, bronze and
total descending with display name ascending as the deterministic final
tie-break (`specLe` states this order in the words of the spec, and the
source comparator is equivalent to it), the sorted list is a permutation of
its input (no record invented or lost), and each output record's rank is
reassigned to its 1-based position after the sort, ignoring any
source-declared rank. -/
theorem claim_C7 (rows : List MedalRow) (topN : Nat) :
    List.Perm (sortByMedals rows) rows ∧
    List.Sorted specLe (rankedTop rows topN) ∧
    (∀ i (h : i < (rankedTop rows topN).length),
      ((rankedTop rows topN)[i]).rank = some (i + 1)) ∧
    (∀ a b : MedalRow, medalsLe a b ↔ specLe a b) :=
  ⟨List.perm_insertionSort medalsLe rows, sorted_rankedTop rows topN,
   fun i h => rankedTop_rank rows topN i h, medalsLe_iff_specLe⟩

/-- The spec's own recompute example: gold ties, silver breaks the tie. -/
def exRowA : MedalRow :=
  { rank := none, noc := "AAA", name := "Aland", gold := 1, silver := 0,
    bronze := 2, total := 3, flag := none, placeholder := false }

def exRowB : MedalRow :=
  { rank := none, noc := "BBB", name := "Bland", gold := 1, silver := 1,
    bronze := 0, total := 2, flag := none, placeholder := false }

/-- Witness for C7: on the spec's example the silver tie-break puts the
second record first and ranks are reassigned 1 and 2. -/
theorem claim_C7_witness :
    ((rankedTop [exRowA, exRowB] 5).get ⟨0, by decide⟩).rank = some 1 ∧
    ((rankedTop [exRowA, exRowB] 5).get ⟨1, by decide⟩).rank = some 2 ∧
    ((rankedTop [exRowA, exRowB] 5).get ⟨0, by decide⟩).noc = "BBB" ∧
    List.Sorted specLe (rankedTop [exRowA, exRowB] 5) := by
  have h := claim_C7 [exRowA, exRowB] 5
  exact ⟨h.2.2.1 0 (by decide), h.2.2.1 1 (by decide), by decide, h.2.1⟩

theorem rank_pos_parseRow_v1 {map : List (String × String)} {k : Nat}
    {r : TableRow} {e : MedalRow} (hk : 1 ≤ k)
    (h : parseRow_v1 map k r = some e) : ∃ m, e.rank = some m ∧ 1 ≤ m := by
  obtain ⟨-, hrank, -, -, -⟩ := parseRow_v1_some_props h
  refine ⟨_, hrank, ?_⟩
  split
  · exact hk
  · next hz => omega

theorem rank_pos_parseRow_v2 {map : List (String × String)} {k : Nat}
    {r : TableRow} {e : MedalRow} (hk : 1 ≤ k)
    (h : parseRow_v2 map k r = some e) : ∃ m, e.rank = some m ∧ 1 ≤ m := by
  obtain ⟨-, hrank, -, -, -⟩ := parseRow_v2_some_props h
  refine ⟨_, hrank, ?_⟩
  split
  · exact hk
  · next hz => omega

theorem rank_pos_finalRows_v1 (ts : List HtmlTable) (map : List (String × String))
    (pc : Nat) : ∀ e ∈ finalRows_v1 ts map pc, ∃ m, e.rank = some m ∧ 1 ≤ m := by
  intro e he
  rw [finalRows_v1] at he
  split at he
  · have hp : e ∈ parseMedalTable_v1 ts map :=
      (List.take_sublist 10 _).subset he
    obtain ⟨r, k, hk, hpk⟩ := mem_parseMedalTable_v1 hp
    exact rank_pos_parseRow_v1 hk hpk
  · obtain ⟨-, i, -, hrank⟩ := mem_buildPlaceholders_v1 he
    exact ⟨i + 1, hrank, Nat.succ_le_succ (Nat.zero_le i)⟩

theorem rank_pos_finalRows_v2 (ts : List HtmlTable) (map : List (String × String))
    (pc : Nat) : ∀ e ∈ finalRows_v2 ts map pc, ∃ m, e.rank = some m ∧ 1 ≤ m := by
  intro e he
  rw [finalRows_v2] at he
  split at he
  · have hp : e ∈ parseMedalTable_v2 ts map :=
      (List.take_sublist 10 _).subset he
    obtain ⟨r, k, hk, hpk⟩ := mem_parseMedalTable_v2 hp
    exact rank_pos_parseRow_v2 hk hpk
  · obtain ⟨-, i, -, hrank⟩ := mem_buildPlaceholders_v2 he
    exact ⟨i + 1, hrank, Nat.succ_le_succ (Nat.zero_le i)⟩

theorem rank_pos_finalRows_p0 (ts : List HtmlTable) (topN pc : Nat) :
    ∀ e ∈ finalRows_p0 ts topN pc, ∃ m, e.rank = some m ∧ 1 ≤ m := by
  intro e he
  rw [finalRows_p0] at he
  split at he
  · obtain ⟨r, k, hk, hpk⟩ := mem_parseTopRows_p0 he
    obtain ⟨-, hrank, -⟩ := parseRow_p0_some_props hpk
    exact ⟨k, hrank, hk⟩
  · have hp : e ∈ buildPlaceholders_p (max pc topN) :=
      (List.take_sublist topN _).subset he
    obtain ⟨-, i, -, hrank⟩ := mem_buildPlaceholders_p hp
    exact ⟨i + 1, hrank, Nat.succ_le_succ (Nat.zero_le i)⟩

theorem rank_pos_finalRows_p1 (ts : List HtmlTable) (topN pc : Nat) :
    ∀ e ∈ finalRows_p1 ts topN pc, ∃ m, e.rank = some m ∧ 1 ≤ m := by
  intro e he
  rw [finalRows_p1] at he
  split at he
  · have hp : e ∈ buildPlaceholders_p (max topN pc) :=
      (List.take_sublist topN _).subset he
    obtain ⟨-, i, -, hrank⟩ := mem_buildPlaceholders_p hp
    exact ⟨i + 1, hrank, Nat.succ_le_succ (Nat.zero_le i)⟩
  · rw [rankedTop] at he
    obtain ⟨y, k, -, hk, rfl⟩ := mem_withRanks he
    exact ⟨k, rfl, hk⟩

/-- C10: every record in the final output of every variant, live or
placeholder, carries a positive (1-based) rank; in `v1` a rank cell that
normalizes to 0 (empty, non-numeric, or the literal "0") is silently
replaced by the row's 1-based emission position; placeholder records are
ranked by their 1-based position. -/
theorem claim_C10 :
    (∀ ts map pc, ∀ e ∈ finalRows_v1 ts map pc, ∃ m, e.rank = some m ∧ 1 ≤ m) ∧
    (∀ ts map pc, ∀ e ∈ finalRows_v2 ts map pc, ∃ m, e.rank = some m ∧ 1 ≤ m) ∧
    (∀ ts topN pc, ∀ e ∈ finalRows_p0 ts topN pc, ∃ m, e.rank = some m ∧ 1 ≤ m) ∧
    (∀ ts topN pc, ∀ e ∈ finalRows_p1 ts topN pc, ∃ m, e.rank = some m ∧ 1 ≤ m) ∧
    (∀ map pos r e, parseRow_v1 map pos r = some e →
      e.rank = some (if num (r.getD 0 emptyCell).text = 0 then pos
                     else num (r.getD 0 emptyCell).text)) ∧
    (∀ count i (h : i < (buildPlaceholders_p count).length),
      ((buildPlaceholders_p count)[i]).rank = some (i + 1)) :=
  ⟨rank_pos_finalRows_v1, rank_pos_finalRows_v2, rank_pos_finalRows_p0,
   rank_pos_finalRows_p1,
   fun _ _ _ _ h => (parseRow_v1_some_props h).2.1,
   fun count i h => getElem_buildPlaceholders_p count i h⟩

/-- A placeholder row produced by an empty document in `v1`. -/
def phRow1 : MedalRow :=
  { rank := some 1, noc := "ITA", name := "Italy", gold := 0, silver := 0,
    bronze := 0, total := 0, flag := none, placeholder := true }

/-- A row whose rank cell normalizes to 0 (the literal "0"). -/
def zeroRankRow : TableRow :=
  [⟨"0", none⟩, ⟨"Italy (ITA)", none⟩, ⟨"1", none⟩, ⟨"0", none⟩, ⟨"0", none⟩,
   ⟨"1", none⟩]

/-- Witness for C10: membership and the rank-replacement hypothesis
discharged at concrete inputs. -/
theorem claim_C10_witness :
    (∃ m, phRow1.rank = some m ∧ 1 ≤ m) ∧
    (∀ e, parseRow_v1 [] 7 zeroRankRow = some e → e.rank = some 7) ∧
    ((buildPlaceholders_p 3).get ⟨2, by decide⟩).rank = some 3 := by
  refine ⟨claim_C10.1 [] [] 1 phRow1 (by decide), ?_, ?_⟩
  · intro e he
    have h := claim_C10.2.2.2.2.1 [] 7 zeroRankRow e he
    simpa using h
  · have h := claim_C10.2.2.2.2.2 3 2 (by decide)
    simpa using h

/-- A 6-cell data row whose rank cell is omitted: the first cell is the
country, so a fixed-index parser shifts every column. -/
def cxRowShift : TableRow :=
  [⟨"Norway (NOR)", none⟩, ⟨"Canada (CAN)", none⟩, ⟨"1", none⟩, ⟨"2", none⟩,
   ⟨"3", none⟩, ⟨"6", none⟩]

/-- Counterexample to C1 as stated: in `parseMedalTable` of
`src/scripts/updateMedals.js` (a cited source of the claim) no
rank-presence detection runs; on a row whose first cell is non-numeric the
emitted display name is the second cell's text, not the first cell's. -/
theorem claim_C1_counterexample :
    isAllDigits (normWs (cxRowShift.getD 0 emptyCell).text) = false ∧
    (parseMedalTable_v1 [[hdrRow, cxRowShift]] []).map MedalRow.name
      = ["Canada (CAN)"] ∧
    normWs (cxRowShift.getD 0 emptyCell).text = "Norway (NOR)" := by decide

/-- C1 amended: in `parseTopRowsInDisplayOrder` (`p0`) rank-presence
detection runs before name/medal extraction: on a row whose first cell is
not a plain non-negative integer the emitted name is the first cell's
cleaned text and the medals are read from the cells immediately after it
(no column shift); on a row with a numeric first cell the name comes from
the second cell and medals from the four after it.  The fixed-index
`parseMedalTable` variants do not perform this detection. -/
theorem claim_C1 :
    ∀ (r : TableRow) (pos : Nat) (e : MedalRow), parseRow_p0 pos r = some e →
      (firstIsRank r = false →
        e.name = cleanName (r.getD 0 emptyCell) ∧
        e.gold = num (r.getD 1 emptyCell).text ∧
        e.silver = num (r.getD 2 emptyCell).text ∧
        e.bronze = num (r.getD 3 emptyCell).text ∧
        e.total = num (r.getD 4 emptyCell).text) ∧
      (firstIsRank r = true →
        e.name = cleanName (r.getD 1 emptyCell) ∧
        e.gold = num (r.getD 2 emptyCell).text ∧
        e.silver = num (r.getD 3 emptyCell).text ∧
        e.bronze = num (r.getD 4 emptyCell).text ∧
        e.total = num (r.getD 5 emptyCell).text) := by
  intro r pos e h
  obtain ⟨-, -, hname, -, -, -, -, hg, hs, hb, ht⟩ := parseRow_p0_some_props h
  constructor
  · intro hfr
    exact ⟨by simpa [hfr] using hname, by simpa [hfr] using hg,
      by simpa [hfr] using hs, by simpa [hfr] using hb, by simpa [hfr] using ht⟩
  · intro hfr
    exact ⟨by simpa [hfr] using hname, by simpa [hfr] using hg,
      by simpa [hfr] using hs, by simpa [hfr] using hb, by simpa [hfr] using ht⟩

/-- A 5-cell rank-omitted row as `p0` sees it. -/
def rowOmit : TableRow :=
  [⟨"Norway (NOR)", none⟩, ⟨"1", none⟩, ⟨"0", none⟩, ⟨"0", none⟩, ⟨"1", none⟩]

/-- The record `p0` emits for `rowOmit` at emission position 1. -/
def p0OmitRec : MedalRow :=
  { rank := some 1, noc := "NOR", name := "Norway (NOR)", gold := 1,
    silver := 0, bronze := 0, total := 1,
    flag := some "https://flagcdn.com/w40/no.png", placeholder := false }

/-- Witness for C1 (amended): a concrete rank-omitted row is parsed with no
column shift. -/
theorem claim_C1_witness :
    firstIsRank rowOmit = false ∧
    p0OmitRec.name = cleanName (rowOmit.getD 0 emptyCell) ∧
    p0OmitRec.gold = num (rowOmit.getD 1 emptyCell).text :=
  ⟨by decide,
   ((claim_C1 rowOmit 1 p0OmitRec (by decide)).1 (by decide)).1,
   ((claim_C1 rowOmit 1 p0OmitRec (by decide)).1 (by decide)).2.1⟩

/-- A well-formed row whose country code no strategy can resolve. -/
def cxRowAtl : TableRow :=
  [⟨"1", none⟩, ⟨"Atlantis", none⟩, ⟨"1", none⟩, ⟨"0", none⟩, ⟨"0", none⟩,
   ⟨"1", none⟩]

/-- Counterexample to C2 as stated: the first `parseMedalTable` of
`src/scripts/updateMedals.js` (a cited source, lines 128-130) drops a row
whose code is unresolvable even though the row passes every other filter,
contradicting "never dropped for that reason alone". -/
theorem claim_C2_counterexample :
    cxRowAtl.length = 6 ∧
    normWs (cxRowAtl.getD 1 emptyCell).text = "Atlantis" ∧
    startsTotals "Atlantis" = false ∧
    inferNoc "Atlantis" "Atlantis" = none ∧
    parseMedalTable_v1 [[hdrRow, cxRowAtl]] [] = [] := by decide

/-- C2 amended: in the `p0`/`p1` parsers a row is never dropped because its
code is unresolved — the only drop conditions are too few cells, an empty
cleaned name, or a totals row — and a record with unresolved code is
emitted with the code falling back to the display name and a null flag.
The first `updateMedals.js` variant instead drops such rows. -/
theorem claim_C2 :
    ∀ r : TableRow,
      (parseRow_p1 r = none ↔
        (r.length < 6 ∨ cleanName (r.getD 1 emptyCell) = "" ∨
          startsTotals (cleanName (r.getD 1 emptyCell)) = true)) ∧
      (∀ e, parseRow_p1 r = some e →
        inferNoc e.name (r.getD 1 emptyCell).text = none →
          e.noc = e.name ∧ e.flag = none) ∧
      (∀ pos e, parseRow_p0 pos r = some e →
        inferNoc e.name (r.getD (if firstIsRank r then 1 else 0) emptyCell).text = none →
          e.noc = e.name ∧ e.flag = none) := by
  intro r
  refine ⟨parseRow_p1_none_iff r, ?_, ?_⟩
  · intro e he hinf
    obtain ⟨-, -, -, -, -, hnoc, hflag⟩ := parseRow_p1_some_props he
    rw [hinf] at hnoc hflag
    exact ⟨hnoc, hflag⟩
  · intro pos e he hinf
    obtain ⟨-, -, -, -, -, hnoc, hflag, -⟩ := parseRow_p0_some_props he
    rw [hinf] at hnoc hflag
    exact ⟨hnoc, hflag⟩

/-- The record `p1` emits for the unresolvable row. -/
def atlRec : MedalRow :=
  { rank := none, noc := "Atlantis", name := "Atlantis", gold := 1,
    silver := 0, bronze := 0, total := 1, flag := none, placeholder := false }

/-- Witness for C2 (amended): the unresolvable row is emitted by `p1` with
code = displayName and a null flag. -/
theorem claim_C2_witness :
    parseRow_p1 cxRowAtl = some atlRec ∧
    atlRec.noc = atlRec.name ∧ atlRec.flag = none :=
  ⟨by decide,
   ((claim_C2 cxRowAtl).2.1 atlRec (by decide) (by decide)).1,
   ((claim_C2 cxRowAtl).2.1 atlRec (by decide) (by decide)).2⟩

/-- An all-zero data row: parsed successfully, but the data is not live. -/
def cxRowZero : TableRow :=
  [⟨"1", none⟩, ⟨"Italy (ITA)", none⟩, ⟨"0", none⟩, ⟨"0", none⟩, ⟨"0", none⟩,
   ⟨"0", none⟩]

/-- Counterexample to C3 as stated: in `p1` (a cited source) the
placeholder decision is `parsedRows.length === 0`, not the liveness
boolean: on an all-zero table liveness is false yet the final rows are the
extracted records, not placeholders. -/
theorem claim_C3_counterexample :
    isLive (parseMedalTable_p1 [[hdrRow, cxRowZero]]) = false ∧
    finalRows_p1 [[hdrRow, cxRowZero]] 5 10
      ≠ (buildPlaceholders_p (max 5 10)).take 5 ∧
    (finalRows_p1 [[hdrRow, cxRowZero]] 5 10).all
      (fun e => e.placeholder == false) = true := by decide

/-- C3 amended: only in the first `updateMedals.js` variant is the liveness
boolean the trigger: there the final rows are the placeholders exactly when
liveness is false, and the extracted records truncated to ten exactly when
liveness is true.  `p0`, `p1` and the second `updateMedals.js` variant
trigger on row counts instead. -/
theorem claim_C3 :
    ∀ ts map pc,
      (finalRows_v1 ts map pc = buildPlaceholders_v1 map pc ↔
        isLive (parseMedalTable_v1 ts map) = false) ∧
      (isLive (parseMedalTable_v1 ts map) = true →
        finalRows_v1 ts map pc = (parseMedalTable_v1 ts map).take 10) := by
  intro ts map pc
  refine ⟨⟨?_, ?_⟩, ?_⟩
  · intro heq
    rcases hb : isLive (parseMedalTable_v1 ts map) with _ | _
    · rfl
    · exfalso
      have heq2 : (parseMedalTable_v1 ts map).take 10 = buildPlaceholders_v1 map pc := by
        simpa [finalRows_v1, hb] using heq
      have hne : parseMedalTable_v1 ts map ≠ [] := isLive_ne_nil hb
      rcases hc : parseMedalTable_v1 ts map with _ | ⟨a, l⟩
      · exact hne hc
      · have hmem : a ∈ (parseMedalTable_v1 ts map).take 10 := by
          rw [hc]
          simp [List.take]
        have hpa : a.placeholder = false :=
          parse_v1_placeholder_false (by rw [hc]; exact List.mem_cons_self a l)
        rw [heq2] at hmem
        have hpt := (mem_buildPlaceholders_v1 hmem).1
        rw [hpa] at hpt
        cases hpt
  · intro hl
    simp [finalRows_v1, hl]
  · intro hl
    simp [finalRows_v1, hl]

/-- A live data row for the C3 witness. -/
def liveRow : TableRow :=
  [⟨"1", none⟩, ⟨"Italy (ITA)", none⟩, ⟨"1", none⟩, ⟨"0", none⟩, ⟨"0", none⟩,
   ⟨"1", none⟩]

/-- Witness for C3 (amended): at concrete inputs `v1` falls back to
placeholders exactly on non-live data and keeps the parsed rows on live
data. -/
theorem claim_C3_witness :
    finalRows_v1 docNoTable [] 2 = buildPlaceholders_v1 [] 2 ∧
    finalRows_v1 [[hdrRow, liveRow]] [] 3
      = (parseMedalTable_v1 [[hdrRow, liveRow]] []).take 10 :=
  ⟨(claim_C3 docNoTable [] 2).1.mpr (by decide),
   (claim_C3 [[hdrRow, liveRow]] [] 3).2 (by decide)⟩

theorem getD_inferNoc_ne_empty {nm s : String} (hnm : nm ≠ "") :
    (inferNoc nm s).getD nm ≠ "" := by
  cases h : inferNoc nm s
  · simpa using hnm
  · next c => simpa using inferNoc_ne_empty h

/-- A row whose country cell carries a trailing host-marker glyph that is
not directly adjacent to the name. -/
def cxRowStar : TableRow :=
  [⟨"1", none⟩, ⟨"Xyz *", none⟩, ⟨"0", none⟩, ⟨"0", none⟩, ⟨"0", none⟩,
   ⟨"0", none⟩]

/-- Counterexample to C4 as stated: the second `parseMedalTable` of
`src/scripts/updateMedals.js` (a cited source, lines 288-317) emits the
display name with the trailing `*` glyph unstripped. -/
theorem claim_C4_counterexample :
    (parseMedalTable_v2 [[hdrRow, cxRowStar]] []).map MedalRow.name = ["Xyz *"] ∧
    cleanNameStr "Xyz *" = "Xyz" := by decide

/-- C4 amended: in the `p0`/`p1` parsers every emitted record has the
display name equal to the cleaned cell name (trailing `*` run stripped,
then trimmed), the name and code are non-empty, and no emitted name starts
with "totals" case-insensitively (such rows are dropped).  The two
`updateMedals.js` variants do not strip trailing glyphs. -/
theorem claim_C4 :
    (∀ r e, parseRow_p1 r = some e →
      e.name = cleanName (r.getD 1 emptyCell) ∧ e.name ≠ "" ∧ e.noc ≠ "" ∧
      startsTotals e.name = false) ∧
    (∀ pos r e, parseRow_p0 pos r = some e →
      e.name = cleanName (r.getD (if firstIsRank r then 1 else 0) emptyCell) ∧
      e.name ≠ "" ∧ e.noc ≠ "" ∧ startsTotals e.name = false) ∧
    (∀ ts e, e ∈ parseMedalTable_p1 ts → e.name ≠ "" ∧ e.noc ≠ "") ∧
    (∀ ts topN e, e ∈ parseTopRowsInDisplayOrder ts topN →
      e.name ≠ "" ∧ e.noc ≠ "") := by
  refine ⟨?_, ?_, ?_, ?_⟩
  · intro r e he
    obtain ⟨-, -, hname, hne, htot, hnoc, -⟩ := parseRow_p1_some_props he
    refine ⟨hname, hne, ?_, htot⟩
    rw [hnoc]
    exact getD_inferNoc_ne_empty hne
  · intro pos r e he
    obtain ⟨-, -, hname, hne, htot, hnoc, -⟩ := parseRow_p0_some_props he
    refine ⟨hname, hne, ?_, htot⟩
    rw [hnoc]
    exact getD_inferNoc_ne_empty hne
  · intro ts e he
    obtain ⟨r, hp⟩ := mem_parseMedalTable_p1 he
    obtain ⟨-, -, -, hne, -, hnoc, -⟩ := parseRow_p1_some_props hp
    exact ⟨hne, by rw [hnoc]; exact getD_inferNoc_ne_empty hne⟩
  · intro ts topN e he
    obtain ⟨r, k, -, hp⟩ := mem_parseTopRows_p0 he
    obtain ⟨-, -, -, hne, -, hnoc, -⟩ := parseRow_p0_some_props hp
    exact ⟨hne, by rw [hnoc]; exact getD_inferNoc_ne_empty hne⟩

/-- The record `p1` emits for the starred row: the glyph is stripped. -/
def starRec : MedalRow :=
  { rank := none, noc := "Xyz", name := "Xyz", gold := 0, silver := 0,
    bronze := 0, total := 0, flag := none, placeholder := false }

/-- Witness for C4 (amended): the starred row is emitted by `p1` with the
glyph stripped and non-empty name and code. -/
theorem claim_C4_witness :
    parseRow_p1 cxRowStar = some starRec ∧
    starRec.name ≠ "" ∧ starRec.noc ≠ "" :=
  ⟨by decide,
   (claim_C4.1 cxRowStar starRec (by decide)).2.1,
   (claim_C4.1 cxRowStar starRec (by decide)).2.2.1⟩

/-- A record with a nonzero medal count. -/
def liveRec : MedalRow :=
  { rank := some 1, noc := "ITA", name := "Italy", gold := 1, silver := 0,
    bronze := 0, total := 1, flag := none, placeholder := false }

/-- Witness for C5: a single nonzero record makes the data live, and the
empty list is non-live. -/
theorem claim_C5_witness : isLive [liveRec] = true ∧ isLive [] = false :=
  ⟨(claim_C5.2 [liveRec]).mpr ⟨liveRec, by decide, by decide⟩, claim_C5.1⟩
